import Mathlib

/-! Traffic controller (`traffic_controller.c`): embedding and verified properties.

The C program runs three kinds of threads over a handful of globals guarded by
one mutex `mtx`:

* `eventScheduler` applies the loaded events one by one,
* every `emergency` event spawns a detached `emergencyClearThread`,
* `trafficController` cycles through the four lanes.

The embedding is a small-step transition system.  One step of a thread is one
critical section (`pthread_mutex_lock` .. `pthread_mutex_unlock`) or one read of
a shared flag made outside the lock, together with the thread-local code that
follows it.  A thread blocked in `pthread_cond_wait` has no step until
`resumeSignal` is true.  Sleeps only influence which interleavings are likely and
are not represented.  `int` is a 32-bit two's-complement integer; the only
operation that can leave its range is the scheduler's `+=`, which is wrapped
explicitly.
-/

namespace Traffic

/-! ## Data model -/

/-- The `Event` struct (lines 13-18); `type` is the `char type[16]` token. -/
structure Event where
  time : Int
  type : String
  lane : Int
  count : Int
deriving DecidableEq, Repr

/-- The lines handed to `logEvent`, one constructor per format string. -/
inductive Msg where
  /-- Line 103: "Time %d: Added %d vehicles to lane %d, total = %d". -/
  | added (time count lane total : Int)
  /-- Line 113: "Time %d: Emergency triggered!". -/
  | triggered (time : Int)
  /-- Line 129: "Emergency auto-cleared (simulated).". -/
  | autoCleared
  /-- Line 166: "All vehicles cleared. Ending simulation.". -/
  | allCleared
  /-- Line 174: "Emergency pause detected: all RED, waiting...". -/
  | pauseDetected
  /-- Line 182: "Controller resumed after emergency.". -/
  | resumed
  /-- Line 201: "Lane %d GREEN for %d seconds". -/
  | green (lane : Fin 4) (greenTime : Int)
  /-- Line 212: "Emergency mid-green! Pausing with %d seconds left.". -/
  | midGreen (greenTimeLeft : Int)
  /-- Line 232: "Lane %d: Vehicle passed. Remaining: %d". -/
  | passed (lane : Fin 4) (remaining : Int)
  /-- Line 237: "Lane %d: No vehicles at this tick.". -/
  | idle (lane : Fin 4)
  /-- Line 253: "Lane %d RED. Next lane: %d". -/
  | red (oldLane newLane : Fin 4)
  /-- Line 260: "Simulation complete.". -/
  | simulationComplete
deriving DecidableEq, Repr

/-- The globals guarded by `mtx` (lines 23, 29-31). -/
structure Shared where
  vehicleCount : Fin 4 → Int
  emergencyActive : Bool
  emergencyPaused : Bool
  resumeSignal : Bool

/-- Value of a 32-bit `int` holding the mathematical integer `x` after
two's-complement wrap-around. -/
def wrap32 (x : Int) : Int := (x + 2147483648) % 4294967296 - 2147483648

/-- The lane index of an in-range `e.lane` (line 99: `e.lane >= 0 && e.lane < 4`). -/
def laneIndex (lane : Int) : Option (Fin 4) :=
  if h : 0 ≤ lane ∧ lane < 4 then
    some ⟨lane.toNat, by omega⟩
  else none

/-! ## Event scheduler (lines 84-141) -/

/-- Effect of the scheduler's critical section (lines 96-137) on the shared
globals. -/
def applyEvent (e : Event) (sh : Shared) : Shared :=
  if e.type = "vehicle" then
    match laneIndex e.lane with
    | some l =>
      let total := wrap32 (sh.vehicleCount l + e.count)
      { sh with vehicleCount := Function.update sh.vehicleCount l total }
    | none => sh
  else if e.type = "emergency" then
    { sh with emergencyActive := true, emergencyPaused := true }
  else sh

/-- Lines logged by the scheduler's critical section; `sh` is the state before
the event, and `currentTime` has already been set to `e.time` (line 94). -/
def applyEventLog (e : Event) (sh : Shared) : List Msg :=
  if e.type = "vehicle" then
    match laneIndex e.lane with
    | some l => [Msg.added e.time e.count e.lane (wrap32 (sh.vehicleCount l + e.count))]
    | none => []
  else if e.type = "emergency" then
    [Msg.triggered e.time]
  else []

/-- Number of `emergencyClearThread`s the event spawns (lines 117-134). -/
def spawned (e : Event) : Nat :=
  if e.type = "vehicle" then 0 else if e.type = "emergency" then 1 else 0

/-! ## Emergency clear thread (lines 119-131) -/

/-- Critical section of `emergencyClearThread` (lines 122-127). -/
def clearEmergency (sh : Shared) : Shared :=
  { sh with emergencyPaused := false, emergencyActive := false, resumeSignal := true }

/-! ## Traffic controller (lines 145-262) -/

/-- Program points of `trafficController` at which another thread can be
scheduled. -/
inductive Pc where
  /-- Line 154: about to run the top-of-loop critical section. -/
  | top
  /-- Line 173: about to read `emergencyPaused` outside the lock. -/
  | chkPaused
  /-- Lines 176-180: waiting for `resumeSignal` in the top-of-loop pause. -/
  | waitTop
  /-- Line 189: about to determine the green time. -/
  | compute
  /-- Lines 206-207: loop test and the read of `emergencyActive` outside the lock. -/
  | loopHead
  /-- Line 216: emergency seen, about to lock and set `emergencyPaused`. -/
  | lockMid
  /-- Line 220: inside `pthread_cond_wait` of the mid-green pause. -/
  | waitMid
  /-- Line 228: about to run the tick's critical section. -/
  | tick
  /-- After the `break` of line 167. -/
  | done
deriving DecidableEq, Repr

/-- Locals of `trafficController` (lines 149-151, 187, 206) and its program
point. -/
structure Ctrl where
  pc : Pc
  currentLane : Fin 4
  greenTimeLeft : Int
  resumingGreenPhase : Bool
  greenTime : Int
  i : Int
deriving DecidableEq, Repr

/-- Line 146: `const int minGreen = 10`. -/
def minGreen : Int := 10

/-- Line 147: `const int maxGreen = 90`. -/
def maxGreen : Int := 90

/-- Lines 194-196: the green time computed from a lane count. -/
def computeGreen (v : Int) : Int :=
  let greenTime := v
  if greenTime < minGreen then minGreen
  else if greenTime > maxGreen then maxGreen
  else greenTime

/-- Lines 156-160: whether some lane still has `vehicleCount[i] > 0`. -/
def vehiclesRemaining (sh : Shared) : Bool :=
  (List.finRange 4).foldl (fun acc i => if sh.vehicleCount i > 0 then true else acc) false

/-- Line 250: `(currentLane + 1) % 4`. -/
def nextLane (l : Fin 4) : Fin 4 := ⟨(l.val + 1) % 4, Nat.mod_lt _ (by decide)⟩

/-- One step of `trafficController`: the new shared globals, the new locals and
the lines logged, or `none` when the thread is blocked or has returned. -/
def ctrlStep (sh : Shared) (c : Ctrl) : Option (Shared × Ctrl × List Msg) :=
  match c.pc with
  | Pc.top =>
    -- lines 154-170
    if !vehiclesRemaining sh && !sh.emergencyActive && !sh.emergencyPaused then
      some (sh, { c with pc := Pc.done }, [Msg.allCleared, Msg.simulationComplete])
    else
      some (sh, { c with pc := Pc.chkPaused }, [])
  | Pc.chkPaused =>
    -- lines 173-174
    if sh.emergencyPaused then
      some (sh, { c with pc := Pc.waitTop }, [Msg.pauseDetected])
    else
      some (sh, { c with pc := Pc.compute }, [])
  | Pc.waitTop =>
    -- lines 176-183
    if sh.resumeSignal then
      some ({ sh with resumeSignal := false }, { c with pc := Pc.top }, [Msg.resumed])
    else none
  | Pc.compute =>
    -- lines 187-202
    if c.resumingGreenPhase then
      some (sh, { c with greenTime := c.greenTimeLeft, resumingGreenPhase := false,
                         i := 0, pc := Pc.loopHead },
            [Msg.green c.currentLane c.greenTimeLeft])
    else
      some (sh, { c with greenTime := computeGreen (sh.vehicleCount c.currentLane),
                         i := 0, pc := Pc.loopHead },
            [Msg.green c.currentLane (computeGreen (sh.vehicleCount c.currentLane))])
  | Pc.loopHead =>
    if c.i < c.greenTime then
      -- lines 207-214
      if sh.emergencyActive then
        some (sh, { c with greenTimeLeft := c.greenTime - c.i, pc := Pc.lockMid },
              [Msg.midGreen (c.greenTime - c.i)])
      else
        some (sh, { c with pc := Pc.tick }, [])
    else
      -- lines 245-254, `interrupted` is false
      some (sh, { c with greenTimeLeft := 0, resumingGreenPhase := false,
                         currentLane := nextLane c.currentLane, pc := Pc.top },
            [Msg.red c.currentLane (nextLane c.currentLane)])
  | Pc.lockMid =>
    -- lines 216-225, then 255-257 with `interrupted` true
    if sh.resumeSignal then
      some ({ sh with emergencyPaused := true, resumeSignal := false },
            { c with resumingGreenPhase := true, pc := Pc.top }, [])
    else
      some ({ sh with emergencyPaused := true }, { c with pc := Pc.waitMid }, [])
  | Pc.waitMid =>
    -- lines 219-225, then 255-257 with `interrupted` true
    if sh.resumeSignal then
      some ({ sh with resumeSignal := false },
            { c with resumingGreenPhase := true, pc := Pc.top }, [])
    else none
  | Pc.tick =>
    -- lines 228-242 and the `i++` of line 206
    if sh.vehicleCount c.currentLane > 0 then
      let remaining := sh.vehicleCount c.currentLane - 1
      some ({ sh with vehicleCount := Function.update sh.vehicleCount c.currentLane remaining },
            { c with i := c.i + 1, pc := Pc.loopHead },
            [Msg.passed c.currentLane remaining])
    else
      some (sh, { c with i := c.i + 1, pc := Pc.loopHead }, [Msg.idle c.currentLane])
  | Pc.done => none

/-! ## The whole system -/

/-- State of the running program after `loadEvents`. -/
structure Sys where
  /-- Globals guarded by `mtx`. -/
  sh : Shared
  /-- Locals of `trafficController`. -/
  ctrl : Ctrl
  /-- `eventQueue[i .. eventCount)`: the events the scheduler has not applied. -/
  queue : List Event
  /-- Local `currentTime` of `eventScheduler`. -/
  currentTime : Int
  /-- Spawned `emergencyClearThread`s that have not run their critical section. -/
  clearTasks : Nat
  /-- Lines written through `logEvent`, oldest first. -/
  log : List Msg

/-- The threads that can take a step. -/
inductive Action where
  | sched
  | clear
  | ctrl
deriving DecidableEq, Repr

/-- One step of the chosen thread, `none` when that thread cannot move. -/
def step (a : Action) (s : Sys) : Option Sys :=
  match a with
  | Action.sched =>
    match s.queue with
    | [] => none
    | e :: rest =>
      some { s with sh := applyEvent e s.sh, queue := rest, currentTime := e.time,
                    clearTasks := s.clearTasks + spawned e,
                    log := s.log ++ applyEventLog e s.sh }
  | Action.clear =>
    if 0 < s.clearTasks then
      some { s with sh := clearEmergency s.sh, clearTasks := s.clearTasks - 1,
                    log := s.log ++ [Msg.autoCleared] }
    else none
  | Action.ctrl =>
    match ctrlStep s.sh s.ctrl with
    | some (sh, c, out) => some { s with sh := sh, ctrl := c, log := s.log ++ out }
    | none => none

/-- Runs a schedule: the listed threads step in order; `none` when one of them
cannot move at its turn. -/
def run : List Action → Sys → Option Sys
  | [], s => some s
  | a :: as, s => (step a s).bind (run as)

/-- Initial values of the globals (lines 23, 29-31). -/
def initShared : Shared :=
  { vehicleCount := fun _ => 0, emergencyActive := false, emergencyPaused := false,
    resumeSignal := false }

/-- Initial locals of `trafficController` (lines 149-151). -/
def initCtrl : Ctrl :=
  { pc := Pc.top, currentLane := 0, greenTimeLeft := 0, resumingGreenPhase := false,
    greenTime := 0, i := 0 }

/-- State when `main` starts the two threads with the loaded `eventQueue`. -/
def initSys (events : List Event) : Sys :=
  { sh := initShared, ctrl := initCtrl, queue := events, currentTime := 0,
    clearTasks := 0, log := [] }

/-- States the program can be in after loading `events`. -/
def Reachable (events : List Event) (s : Sys) : Prop :=
  ∃ schedule, run schedule (initSys events) = some s

/-! ## Event loading (lines 47-80)

`sscanf` is represented by the two conversions the format strings use.  Numerals
outside the range of `int` and type tokens longer than the 15 characters that
fit `char type[16]` are outside the model, as are more than `MAX_EVENTS` lines.
-/

/-- The predicate `isspace` of the C locale. -/
def isSpace (c : Char) : Bool :=
  c = ' ' || c.toNat = 9 || c.toNat = 10 || c.toNat = 11 || c.toNat = 12 || c.toNat = 13

/-- Value of a run of decimal digits. -/
def digitsValue (ds : List Char) : Int :=
  ds.foldl (fun acc d => acc * 10 + ((d.toNat : Int) - 48)) 0

/-- The conversion `%d`: skips white space, reads an optional sign and at least
one digit; returns the value and the unread input. -/
def scanInt (input : List Char) : Option (Int × List Char) :=
  let cs := input.dropWhile isSpace
  let body := match cs with
    | '-' :: r => r
    | '+' :: r => r
    | _ => cs
  let negative := cs.head? = some '-'
  let ds := body.takeWhile Char.isDigit
  if ds.isEmpty then none
  else some (if negative then - digitsValue ds else digitsValue ds, body.dropWhile Char.isDigit)

/-- The conversion `%s`: skips white space and reads a non-empty run of
characters that are not white space. -/
def scanToken (input : List Char) : Option (String × List Char) :=
  let cs := input.dropWhile isSpace
  let tok := cs.takeWhile (fun c => !isSpace c)
  if tok.isEmpty then none
  else some (String.mk tok, cs.dropWhile (fun c => !isSpace c))

/-- Body of the `while (fgets ...)` loop (lines 57-76) for one line as `fgets`
returned it.  `uninit` is the indeterminate content of the local `Event e`, which
line 60 declares without an initialiser; `queue` is `eventQueue[0 .. eventCount)`. -/
def processLine (uninit : Event) (line : List Char) (queue : List Event) : List Event :=
  if line.head? = some '#' || line.length < 2 then queue
  else
    match scanInt line with
    | none => queue
    | some (time, afterTime) =>
      match scanToken afterTime with
      | none => queue
      | some (type, afterType) =>
        if type = "vehicle" then
          -- lines 69-70: the result of this `sscanf` is not looked at
          match scanInt afterType with
          | none => queue ++ [{ time := time, type := type, lane := uninit.lane,
                                count := uninit.count }]
          | some (lane, afterLane) =>
            match scanInt afterLane with
            | none => queue ++ [{ time := time, type := type, lane := lane,
                                  count := uninit.count }]
            | some (count, _) => queue ++ [{ time := time, type := type, lane := lane,
                                             count := count }]
        else queue ++ [{ time := time, type := type, lane := -1, count := 0 }]

/-- The loop of `loadEvents` over the lines of `events.txt`; `uninit k` is the
indeterminate content of `e` in iteration `k`. -/
def loadEvents (uninit : Nat → Event) (lines : List (List Char)) : List Event :=
  lines.enum.foldl (fun queue kl => processLine (uninit kl.1) kl.2 queue) []

/-! ## Reference definitions and observations used in the statements -/

/-- Clamp of the specification: `v` constrained to lie within `[lo, hi]`. -/
def clampRef (v lo hi : Int) : Int := max lo (min v hi)

/-- Reference for the scheduler's apply step, written from the specification:
a vehicle event for a lane in `[0,4)` adds its count to that lane, an emergency
event raises `active` and `paused`, anything else changes nothing.  The sum is
the mathematical one. -/
def applyEventRef (e : Event) (sh : Shared) : Shared :=
  if e.type = "vehicle" ∧ 0 ≤ e.lane ∧ e.lane < 4 then
    { vehicleCount := fun l =>
        if (l.val : Int) = e.lane then sh.vehicleCount l + e.count
        else sh.vehicleCount l,
      emergencyActive := sh.emergencyActive,
      emergencyPaused := sh.emergencyPaused,
      resumeSignal := sh.resumeSignal }
  else if e.type = "emergency" then
    { vehicleCount := sh.vehicleCount,
      emergencyActive := true,
      emergencyPaused := true,
      resumeSignal := sh.resumeSignal }
  else sh

/-- Count of a lane holding `n` vehicles after `k` ticks (lines 229-230). -/
def countAfter (n : Int) : Nat → Int
  | 0 => n
  | k + 1 => if n > 0 then countAfter (n - 1) k else countAfter n k

/-- Lines logged by `k` consecutive ticks of lane `l` holding `n` vehicles
(lines 229-239). -/
def tickLines (l : Fin 4) (n : Int) : Nat → List Msg
  | 0 => []
  | k + 1 =>
    if n > 0 then Msg.passed l (n - 1) :: tickLines l (n - 1) k
    else Msg.idle l :: tickLines l n k

/-- Sum of the counts that the vehicle events of `events` add to lane `l`. -/
def laneArrivals (l : Fin 4) : List Event → Int
  | [] => 0
  | e :: rest =>
    if e.type = "vehicle" ∧ laneIndex e.lane = some l then e.count + laneArrivals l rest
    else laneArrivals l rest

/-- Whether a log line reports a tick of lane `l` (lines 232 and 237). -/
def isTickOf (l : Fin 4) : Msg → Bool
  | Msg.passed l' _ => l' = l
  | Msg.idle l' => l' = l
  | _ => false

/-- Number of ticks of lane `l` reported in a log. -/
def ticksOf (l : Fin 4) (log : List Msg) : Nat := log.countP (isTickOf l)

/-- Whether a log line reports a lane change (line 253). -/
def isRed : Msg → Bool
  | Msg.red _ _ => true
  | _ => false

/-- Number of lane changes reported in a log. -/
def redCount (log : List Msg) : Nat := log.countP isRed

/-- Ticks the controller still has to run in the green phase it is in: the rest
of the `for` loop, or the saved `greenTimeLeft` of an interrupted phase. -/
def owed (c : Ctrl) : Int :=
  match c.pc with
  | Pc.loopHead => c.greenTime - c.i
  | Pc.tick => c.greenTime - c.i
  | Pc.lockMid => c.greenTimeLeft
  | Pc.waitMid => c.greenTimeLeft
  | Pc.done => 0
  | _ => if c.resumingGreenPhase then c.greenTimeLeft else 0

/-- Every vehicle event of the list that addresses a lane in `[0,4)` has a count `≥ 0`. -/
def NonnegArrivals (events : List Event) : Prop :=
  ∀ e ∈ events, e.type = "vehicle" → 0 ≤ e.lane → e.lane < 4 → 0 ≤ e.count

/-- Invariant behind the non-negative counts. -/
def CountsInv (bound : Fin 4 → Int) (s : Sys) : Prop :=
  NonnegArrivals s.queue ∧
  ∀ l, 0 ≤ s.sh.vehicleCount l ∧ s.sh.vehicleCount l + laneArrivals l s.queue ≤ bound l

/-- Invariant of an interrupted green phase of lane `L`. -/
def PhaseInv (L : Fin 4) (T : Int) (R : Nat) (s : Sys) : Prop :=
  s.ctrl.currentLane = L ∧
  (ticksOf L s.log : Int) + owed s.ctrl = T ∧
  0 ≤ owed s.ctrl ∧
  redCount s.log = R ∧
  s.ctrl.pc ≠ Pc.done ∧
  (s.ctrl.pc = Pc.top ∨ s.ctrl.pc = Pc.chkPaused ∨ s.ctrl.pc = Pc.waitTop ∨
    s.ctrl.pc = Pc.compute → s.ctrl.resumingGreenPhase = true) ∧
  (s.ctrl.pc = Pc.tick → s.ctrl.i < s.ctrl.greenTime)

/-- The phase is over: the controller has stopped or has changed lane. -/
def PhaseOver (R : Nat) (s : Sys) : Prop :=
  s.ctrl.pc = Pc.done ∨ R < redCount s.log

/-! ## Concrete inputs used in the examples -/

/-- Events of `events.txt` with the single line `0 vehicle 0 5`. -/
def fiveAtLaneZero : List Event := [⟨0, "vehicle", 0, 5⟩]

/-- Events of `events.txt` with the single line `0 vehicle 0 -5`. -/
def minusFiveAtLaneZero : List Event := [⟨0, "vehicle", 0, -5⟩]

/-- Events of the lines `0 vehicle 0 5` and `1 emergency`. -/
def fiveThenEmergency : List Event := [⟨0, "vehicle", 0, 5⟩, ⟨1, "emergency", -1, 0⟩]

/-- Events of the lines `0 vehicle 0 3` and `5 emergency`. -/
def threeThenEmergency : List Event := [⟨0, "vehicle", 0, 3⟩, ⟨5, "emergency", -1, 0⟩]

/-- Events of the lines `0 vehicle 0 20` and `3 emergency`. -/
def twentyThenEmergency : List Event := [⟨0, "vehicle", 0, 20⟩, ⟨3, "emergency", -1, 0⟩]

/-- Events of the lines `0 vehicle 0 2147483647` and `1 vehicle 0 1`. -/
def intMaxThenOne : List Event := [⟨0, "vehicle", 0, 2147483647⟩, ⟨1, "vehicle", 0, 1⟩]

/-- Globals with `n` vehicles in lane 0 and no emergency. -/
def laneZeroHolds (n : Int) : Shared :=
  { vehicleCount := fun l => if l = 0 then n else 0, emergencyActive := false,
    emergencyPaused := false, resumeSignal := false }

/-- The controller about to determine the green time of lane 0, which holds
five vehicles. -/
def beforeGreen : Sys :=
  { sh := laneZeroHolds 5,
    ctrl := { initCtrl with pc := Pc.compute },
    queue := [], currentTime := 0, clearTasks := 0, log := [] }

/-- The controller at the head of the tick loop of lane 0 after 3 of 20 ticks,
with 17 vehicles left, an emergency just triggered and its clear thread pending. -/
def emergencySeen : Sys :=
  { sh := { vehicleCount := fun l => if l = 0 then 17 else 0, emergencyActive := true,
            emergencyPaused := true, resumeSignal := false },
    ctrl := { pc := Pc.loopHead, currentLane := 0, greenTimeLeft := 0,
              resumingGreenPhase := false, greenTime := 20, i := 3 },
    queue := [], currentTime := 3, clearTasks := 1, log := [] }

/-! ## Auxiliary lemmas -/

theorem run_append (xs ys : List Action) (s : Sys) :
    run (xs ++ ys) s = (run xs s).bind (run ys) := by
  induction xs generalizing s with
  | nil => simp [run]
  | cons a as ih =>
    simp only [List.cons_append, run]
    cases step a s with
    | none => simp
    | some t => simpa using ih t

theorem laneIndex_some (lane : Int) (h0 : 0 ≤ lane) (h4 : lane < 4) :
    ∃ l : Fin 4, laneIndex lane = some l ∧ (l.val : Int) = lane := by
  refine ⟨⟨lane.toNat, by omega⟩, ?_, ?_⟩
  · simp [laneIndex, h0, h4]
  · simp [h0]

theorem laneIndex_eq_some (lane : Int) (l : Fin 4) (h : laneIndex lane = some l) :
    (l.val : Int) = lane := by
  unfold laneIndex at h
  split_ifs at h with hl
  simp only [Option.some.injEq] at h
  subst h
  simp [hl.1]

theorem laneIndex_none (lane : Int) (h : ¬ (0 ≤ lane ∧ lane < 4)) : laneIndex lane = none := by
  simp [laneIndex, h]

theorem wrap32_of_fits (x : Int) (h0 : -2147483648 ≤ x) (h1 : x ≤ 2147483647) :
    wrap32 x = x := by
  unfold wrap32
  omega

theorem vehiclesRemaining_iff (sh : Shared) :
    vehiclesRemaining sh = true ↔ ∃ l, sh.vehicleCount l > 0 := by
  have : List.finRange 4 = [0, 1, 2, 3] := by decide
  simp only [vehiclesRemaining, this, List.foldl]
  constructor
  · intro h
    by_contra hne
    push_neg at hne
    have h0 := hne 0
    have h1 := hne 1
    have h2 := hne 2
    have h3 := hne 3
    simp [not_lt.mpr h0, not_lt.mpr h1, not_lt.mpr h2, not_lt.mpr h3] at h
  · rintro ⟨l, hl⟩
    fin_cases l <;> simp at hl <;> simp [hl]

theorem run_ticks_aux (k : Nat) : ∀ (vc : Fin 4 → Int) (pau rs : Bool) (lane : Fin 4)
    (gtl : Int) (res : Bool) (g i : Int) (q : List Event) (t : Int) (ct : Nat) (lg : List Msg),
    i + k ≤ g →
    run (List.replicate (2 * k) Action.ctrl)
      ⟨⟨vc, false, pau, rs⟩, ⟨Pc.loopHead, lane, gtl, res, g, i⟩, q, t, ct, lg⟩ =
    some ⟨⟨Function.update vc lane (countAfter (vc lane) k), false, pau, rs⟩,
      ⟨Pc.loopHead, lane, gtl, res, g, i + k⟩, q, t, ct, lg ++ tickLines lane (vc lane) k⟩ := by
  induction k with
  | zero =>
    intros
    simp [run, tickLines, countAfter]
  | succ k ih =>
    intro vc pau rs lane gtl res g i q t ct lg hi
    have hlt : i < g := by push_cast at hi; omega
    have hk : i + 1 + (k : Int) ≤ g := by push_cast at hi; omega
    rw [show 2 * (k + 1) = (2 * k + 1) + 1 by ring, List.replicate_succ, List.replicate_succ]
    by_cases hn : vc lane > 0
    · simp only [run, step, ctrlStep, hlt, hn, if_true, Option.some_bind, Bool.false_eq_true,
        if_false, List.append_nil]
      rw [ih _ _ _ _ _ _ _ _ _ _ _ _ hk]
      simp only [Function.update_same, Function.update_idem, tickLines, countAfter, hn,
        if_true, List.append_assoc, List.singleton_append, Nat.cast_add, Nat.cast_one]
      congr 3
      ring
    · simp only [run, step, ctrlStep, hlt, hn, if_true, Option.some_bind, Bool.false_eq_true,
        if_false, List.append_nil]
      rw [ih _ _ _ _ _ _ _ _ _ _ _ _ hk]
      simp only [tickLines, countAfter, hn,
        if_false, List.append_assoc, List.singleton_append, Nat.cast_add, Nat.cast_one]
      congr 3
      ring

theorem countAfter_eq (k : Nat) : ∀ n : Int, 0 ≤ n → countAfter n k = n - min n k := by
  induction k with
  | zero => intro n hn; simp [countAfter, hn]
  | succ k ih =>
    intro n hn
    by_cases h : n > 0
    · simp only [countAfter, h, if_true]
      rw [ih _ (by omega)]
      push_cast
      omega
    · have : n = 0 := by omega
      subst this
      simp only [countAfter, if_false, lt_self_iff_false, gt_iff_lt]
      rw [ih _ (le_refl _)]
      push_cast
      omega

theorem tickLines_eq (l : Fin 4) (k : Nat) : ∀ n : Int, 0 ≤ n →
    tickLines l n k =
      (List.range (min n.toNat k)).map (fun j : Nat => Msg.passed l (n - 1 - (j : Int)))
        ++ List.replicate (k - min n.toNat k) (Msg.idle l) := by
  induction k with
  | zero => intro n _; simp [tickLines]
  | succ k ih =>
    intro n hn
    by_cases h : n > 0
    · simp only [tickLines, h, if_true]
      rw [ih _ (by omega)]
      obtain ⟨m, rfl⟩ : ∃ m : Nat, n = (m : Int) + 1 := ⟨(n - 1).toNat, by omega⟩
      have h1 : ((m : Int) + 1).toNat = m + 1 := by omega
      have h2 : ((m : Int) + 1 - 1).toNat = m := by omega
      rw [h1, h2, Nat.succ_min_succ, List.range_succ_eq_map, List.map_cons, List.map_map,
        Nat.add_sub_add_right]
      simp only [List.cons_append, Nat.cast_zero, sub_zero, List.cons.injEq, true_and,
        List.append_cancel_right_eq]
      apply List.map_congr_left
      intro j _
      simp only [Function.comp, Nat.succ_eq_add_one, Nat.cast_add, Nat.cast_one]
      congr 1
      ring
    · have : n = 0 := by omega
      subst this
      simp only [tickLines, if_false, lt_self_iff_false, gt_iff_lt]
      rw [ih _ (le_refl _)]
      simp [List.replicate_succ]

theorem laneArrivals_nonneg (l : Fin 4) (events : List Event) (h : NonnegArrivals events) :
    0 ≤ laneArrivals l events := by
  induction events with
  | nil => simp [laneArrivals]
  | cons e rest ih =>
    have hrest : NonnegArrivals rest := fun e' he' => h e' (List.mem_cons_of_mem _ he')
    have := ih hrest
    unfold laneArrivals
    split_ifs with hc
    · have h1 := laneIndex_eq_some _ _ hc.2
      have : 0 ≤ e.count := h e (List.mem_cons_self _ _) hc.1
        (by rw [← h1]; exact Int.natCast_nonneg _) (by rw [← h1]; exact_mod_cast l.isLt)
      omega
    · exact this

theorem ctrlStep_counts (sh sh' : Shared) (c c' : Ctrl) (out : List Msg)
    (h : ctrlStep sh c = some (sh', c', out)) (l : Fin 4) (h0 : 0 ≤ sh.vehicleCount l) :
    0 ≤ sh'.vehicleCount l ∧ sh'.vehicleCount l ≤ sh.vehicleCount l := by
  unfold ctrlStep at h
  split at h <;> (try split_ifs at h) <;>
    simp only [Option.some.injEq, Prod.mk.injEq, reduceCtorEq] at h <;>
    obtain ⟨rfl, -, -⟩ := h <;> try exact ⟨h0, le_refl _⟩
  rename_i hpos
  by_cases hl : l = c.currentLane
  · subst hl
    simp only [Function.update_same]
    omega
  · simp only [Function.update_noteq hl]
    exact ⟨h0, le_refl _⟩

theorem step_countsInv (bound : Fin 4 → Int) (hb : ∀ l, bound l ≤ 2147483647)
    (a : Action) (s s' : Sys) (hs : CountsInv bound s) (h : step a s = some s') :
    CountsInv bound s' := by
  obtain ⟨hq, hc⟩ := hs
  cases a with
  | sched =>
    simp only [step] at h
    cases hqueue : s.queue with
    | nil => simp [hqueue] at h
    | cons e rest =>
      simp only [hqueue, Option.some.injEq] at h
      subst h
      rw [hqueue] at hq
      have hrest : NonnegArrivals rest := fun e' he' => hq e' (List.mem_cons_of_mem _ he')
      refine ⟨hrest, fun l => ?_⟩
      have hl := hc l
      rw [hqueue] at hl
      have hrn := laneArrivals_nonneg l rest hrest
      simp only [applyEvent]
      by_cases hv : e.type = "vehicle"
      · cases hli : laneIndex e.lane with
        | none =>
          simp only [hv, hli, if_true]
          simp only [laneArrivals, hv, hli, true_and, reduceCtorEq, if_false] at hl
          exact hl
        | some l0 =>
          have h1 := laneIndex_eq_some _ _ hli
          have hcnt : 0 ≤ e.count := hq e (List.mem_cons_self _ _) hv
            (by rw [← h1]; exact Int.natCast_nonneg _) (by rw [← h1]; exact_mod_cast l0.isLt)
          simp only [hv, hli, if_true]
          by_cases hll : l = l0
          · subst hll
            simp only [laneArrivals, hv, hli, true_and, if_true] at hl
            simp only [Function.update_same]
            rw [wrap32_of_fits _ (by omega) (by have := hb l; omega)]
            omega
          · have : ¬ (some l0 = some l) := by
              intro hh; exact hll (Option.some.inj hh).symm
            simp only [laneArrivals, hv, hli, true_and, this, if_false] at hl
            simp only [Function.update_noteq hll]
            exact hl
      · have hla : laneArrivals l (e :: rest) = laneArrivals l rest := by
          simp [laneArrivals, hv]
        rw [hla] at hl
        by_cases he : e.type = "emergency"
        · simp only [hv, he, if_true, if_false]
          exact hl
        · simp only [hv, he, if_false]
          exact hl
  | clear =>
    simp only [step] at h
    split_ifs at h
    simp only [Option.some.injEq] at h
    subst h
    exact ⟨hq, hc⟩
  | ctrl =>
    simp only [step] at h
    cases hcs : ctrlStep s.sh s.ctrl with
    | none => simp [hcs] at h
    | some r =>
      obtain ⟨sh', c', out⟩ := r
      simp only [hcs, Option.some.injEq] at h
      subst h
      refine ⟨hq, fun l => ?_⟩
      have := ctrlStep_counts _ _ _ _ _ hcs l (hc l).1
      have := hc l
      constructor
      · tauto
      · simp only
        omega

theorem run_countsInv (bound : Fin 4 → Int) (hb : ∀ l, bound l ≤ 2147483647)
    (schedule : List Action) : ∀ s s' : Sys, CountsInv bound s → run schedule s = some s' →
    CountsInv bound s' := by
  induction schedule with
  | nil =>
    intro s s' hs h
    simp only [run, Option.some.injEq] at h
    exact h ▸ hs
  | cons a as ih =>
    intro s s' hs h
    simp only [run] at h
    cases hst : step a s with
    | none => simp [hst] at h
    | some t =>
      rw [hst, Option.some_bind] at h
      exact ih t s' (step_countsInv bound hb a s t hs hst) h

theorem ticksOf_append (L : Fin 4) (xs ys : List Msg) :
    ticksOf L (xs ++ ys) = ticksOf L xs + ticksOf L ys := by
  simp [ticksOf, List.countP_append]

theorem redCount_append (xs ys : List Msg) :
    redCount (xs ++ ys) = redCount xs + redCount ys := by
  simp [redCount, List.countP_append]

theorem applyEventLog_ticks (L : Fin 4) (e : Event) (sh : Shared) :
    ticksOf L (applyEventLog e sh) = 0 ∧ redCount (applyEventLog e sh) = 0 := by
  unfold applyEventLog
  split_ifs
  · split <;> simp [ticksOf, redCount, isTickOf, isRed]
  · simp [ticksOf, redCount, isTickOf, isRed]
  · simp [ticksOf, redCount]

theorem step_phaseInv (L : Fin 4) (T : Int) (R : Nat) (a : Action) (s s' : Sys)
    (hs : PhaseInv L T R s) (h : step a s = some s') : PhaseInv L T R s' ∨ PhaseOver R s' := by
  obtain ⟨hL, hT, h0, hR, hd, hres, htick⟩ := hs
  cases a with
  | sched =>
    simp only [step] at h
    cases hq : s.queue with
    | nil => simp [hq] at h
    | cons e rest =>
      simp only [hq, Option.some.injEq] at h
      subst h
      left
      have := applyEventLog_ticks L e s.sh
      exact ⟨hL, by simp only [ticksOf_append, this.1]; simpa using hT, h0,
        by simp only [redCount_append, this.2]; simpa using hR, hd, hres, htick⟩
  | clear =>
    simp only [step] at h
    split_ifs at h
    simp only [Option.some.injEq] at h
    subst h
    left
    exact ⟨hL, by simpa [ticksOf_append, ticksOf, isTickOf] using hT, h0,
      by simpa [redCount_append, redCount, isRed] using hR, hd, hres, htick⟩
  | ctrl =>
    obtain ⟨sh, c, q, t, ct, lg⟩ := s
    obtain ⟨pc, lane, gtl, res, g, i⟩ := c
    simp only at hL hT h0 hR hd hres htick
    subst hL
    cases pc <;> simp only [owed] at hT h0 <;> simp only [reduceCtorEq, false_or, or_false,
      true_or, or_true, true_implies, false_implies, ne_eq, not_true_eq_false,
      not_false_eq_true] at hres htick hd <;> simp only [step, ctrlStep] at h
    all_goals (split_ifs at h <;> simp only [Option.some.injEq, reduceCtorEq] at h <;> subst h <;>
      simp only [ticksOf, redCount, hres, if_true] at hT h0 hR <;>
      simp [PhaseInv, PhaseOver, owed, ticksOf, redCount, List.countP_append, List.countP_cons,
        isTickOf, isRed, hres] <;> try omega)

theorem step_log_prefix (a : Action) (s s' : Sys) (h : step a s = some s') :
    ∃ out, s'.log = s.log ++ out ∧ (a ≠ Action.ctrl → s'.ctrl = s.ctrl) := by
  cases a with
  | sched =>
    simp only [step] at h
    cases hq : s.queue with
    | nil => simp [hq] at h
    | cons e rest =>
      simp only [hq, Option.some.injEq] at h
      subst h
      exact ⟨_, rfl, fun _ => rfl⟩
  | clear =>
    simp only [step] at h
    split_ifs at h
    simp only [Option.some.injEq] at h
    subst h
    exact ⟨_, rfl, fun _ => rfl⟩
  | ctrl =>
    simp only [step] at h
    cases hcs : ctrlStep s.sh s.ctrl with
    | none => simp [hcs] at h
    | some r =>
      obtain ⟨sh', c', out⟩ := r
      simp only [hcs, Option.some.injEq] at h
      subst h
      exact ⟨_, rfl, fun hne => absurd rfl hne⟩

theorem step_phaseOver (R : Nat) (a : Action) (s s' : Sys)
    (hs : PhaseOver R s) (h : step a s = some s') : PhaseOver R s' := by
  obtain ⟨out, hlog, hctrl⟩ := step_log_prefix a s s' h
  rcases hs with hd | hr
  · left
    cases a with
    | ctrl => simp [step, ctrlStep, hd] at h
    | sched => rw [hctrl (by simp)]; exact hd
    | clear => rw [hctrl (by simp)]; exact hd
  · right
    rw [hlog, redCount_append]
    omega

theorem run_phaseInv (L : Fin 4) (T : Int) (R : Nat) (schedule : List Action) :
    ∀ s s' : Sys, PhaseInv L T R s ∨ PhaseOver R s → run schedule s = some s' →
      PhaseInv L T R s' ∨ PhaseOver R s' := by
  induction schedule with
  | nil =>
    intro s s' hs h
    simp only [run, Option.some.injEq] at h
    exact h ▸ hs
  | cons a as ih =>
    intro s s' hs h
    simp only [run] at h
    cases hst : step a s with
    | none => simp [hst] at h
    | some t =>
      rw [hst, Option.some_bind] at h
      refine ih t s' ?_ h
      rcases hs with hs | hs
      · exact step_phaseInv L T R a s t hs hst
      · exact Or.inr (step_phaseOver R a s t hs hst)

theorem step_interrupt (s : Sys) (hpc : s.ctrl.pc = Pc.loopHead)
    (hi : s.ctrl.i < s.ctrl.greenTime) (hact : s.sh.emergencyActive = true) :
    step Action.ctrl s = some { s with
      ctrl := { s.ctrl with greenTimeLeft := s.ctrl.greenTime - s.ctrl.i, pc := Pc.lockMid },
      log := s.log ++ [Msg.midGreen (s.ctrl.greenTime - s.ctrl.i)] } := by
  simp [step, ctrlStep, hpc, hi, hact]

theorem phaseInv_after_interrupt (s : Sys) (hpc : s.ctrl.pc = Pc.loopHead)
    (hi : s.ctrl.i < s.ctrl.greenTime) (hact : s.sh.emergencyActive = true)
    (schedule : List Action) (s' : Sys) (hrun : run (Action.ctrl :: schedule) s = some s')
    (hd : s'.ctrl.pc ≠ Pc.done) (hr : redCount s'.log = redCount s.log) :
    PhaseInv s.ctrl.currentLane
      ((ticksOf s.ctrl.currentLane s.log : Int) + (s.ctrl.greenTime - s.ctrl.i))
      (redCount s.log) s' := by
  simp only [run] at hrun
  rw [step_interrupt s hpc hi hact, Option.some_bind] at hrun
  have hinit : PhaseInv s.ctrl.currentLane
      ((ticksOf s.ctrl.currentLane s.log : Int) + (s.ctrl.greenTime - s.ctrl.i))
      (redCount s.log) { s with
        ctrl := { s.ctrl with greenTimeLeft := s.ctrl.greenTime - s.ctrl.i, pc := Pc.lockMid },
        log := s.log ++ [Msg.midGreen (s.ctrl.greenTime - s.ctrl.i)] } := by
    simp [PhaseInv, owed, ticksOf, redCount, List.countP_append, isTickOf, isRed]
    omega
  rcases run_phaseInv _ _ _ schedule _ s' (Or.inl hinit) hrun with h | h
  · exact h
  · rcases h with h | h
    · exact absurd h hd
    · omega

theorem computeGreen_eq (v : Int) : computeGreen v = clampRef v 10 90 := by
  simp only [computeGreen, clampRef, minGreen, maxGreen]
  split_ifs <;> omega


theorem ticksOf_tickLines (L : Fin 4) (k : Nat) : ∀ n : Int, ticksOf L (tickLines L n k) = k := by
  induction k with
  | zero => intro n; simp [tickLines, ticksOf]
  | succ k ih =>
    intro n
    simp only [tickLines]
    split_ifs
    · have := ih (n - 1)
      simp only [ticksOf] at this ⊢
      simp [List.countP_cons, isTickOf, this]
    · have := ih n
      simp only [ticksOf] at this ⊢
      simp [List.countP_cons, isTickOf, this]

theorem run_resumed_phase (s : Sys) (hpc : s.ctrl.pc = Pc.loopHead)
    (hi : s.ctrl.i < s.ctrl.greenTime) (hact : s.sh.emergencyActive = true)
    (hrs : s.sh.resumeSignal = false) (hct : 0 < s.clearTasks)
    (hveh : ∃ l, 0 < s.sh.vehicleCount l) :
    ∃ s', run ([Action.ctrl, Action.ctrl, Action.clear, Action.ctrl, Action.ctrl, Action.ctrl,
          Action.ctrl] ++ (List.replicate (2 * (s.ctrl.greenTime - s.ctrl.i).toNat) Action.ctrl
            ++ [Action.ctrl])) s = some s' ∧
      s'.ctrl.pc = Pc.top ∧ s'.ctrl.currentLane = nextLane s.ctrl.currentLane ∧
      s'.log = s.log ++ [Msg.midGreen (s.ctrl.greenTime - s.ctrl.i), Msg.autoCleared,
          Msg.green s.ctrl.currentLane (s.ctrl.greenTime - s.ctrl.i)]
        ++ tickLines s.ctrl.currentLane (s.sh.vehicleCount s.ctrl.currentLane)
            (s.ctrl.greenTime - s.ctrl.i).toNat
        ++ [Msg.red s.ctrl.currentLane (nextLane s.ctrl.currentLane)] ∧
      ticksOf s.ctrl.currentLane s'.log
        = ticksOf s.ctrl.currentLane s.log + (s.ctrl.greenTime - s.ctrl.i).toNat := by
  obtain ⟨⟨vc, act, pau, rs⟩, ⟨pc, lane, gtl, res, g, i⟩, q, t, ct, lg⟩ := s
  simp only at hpc hi hact hrs hct hveh
  subst hpc hact hrs
  have hvr : vehiclesRemaining ⟨vc, false, false, false⟩ = true :=
    (vehiclesRemaining_iff _).mpr hveh
  have hk : (0 : Int) + ((g - i).toNat : Nat) ≤ g - i := by omega
  have hticks := run_ticks_aux (g - i).toNat vc false false lane (g - i) false
    (g - i) 0 q t (ct - 1) (lg ++ [Msg.midGreen (g - i)] ++ [Msg.autoCleared]
      ++ [Msg.green lane (g - i)]) hk
  have hge : ¬ (0 + ((g - i).toNat : Int) < g - i) := by omega
  refine ⟨⟨⟨Function.update vc lane (countAfter (vc lane) (g - i).toNat), false, false, false⟩,
      ⟨Pc.top, nextLane lane, 0, false, g - i, 0 + ((g - i).toNat : Nat)⟩,
      q, t, ct - 1, lg ++ [Msg.midGreen (g - i)] ++ [Msg.autoCleared] ++ [Msg.green lane (g - i)]
        ++ tickLines lane (vc lane) (g - i).toNat ++ [Msg.red lane (nextLane lane)]⟩,
    ?_, rfl, rfl, ?_, ?_⟩
  · rw [run_append]
    simp only [run, step, ctrlStep, hi, if_true, Option.some_bind, Bool.false_eq_true, if_false,
      hct, clearEmergency, hvr, Bool.not_true, Bool.and_false, Bool.false_and, Bool.not_false,
      Bool.and_true, List.append_nil]
    rw [run_append, hticks]
    simp only [Option.some_bind, run, step, ctrlStep, hge, if_false]
  · simp
  · simp only [ticksOf_append, ticksOf_tickLines]
    simp [ticksOf, isTickOf]

/-! ## The claims -/

/-- C1, as stated, fails: after the accepted line `0 vehicle 0 -5` the scheduler
leaves lane 0 with the count `-5`. -/
theorem negative_count_reachable :
    ∃ s, Reachable minusFiveAtLaneZero s ∧ s.sh.vehicleCount 0 = -5 := by
  refine ⟨_, ⟨[Action.sched], rfl⟩, ?_⟩
  decide

/-- C1, amended: when every vehicle event that addresses a lane in `[0,4)` has a
count `≥ 0` and the counts addressed to each lane sum to at most `INT_MAX`, every
lane's vehicle count is `≥ 0` in every state reachable by steps of the scheduler,
the clear threads and the controller. -/
theorem counts_nonneg (events : List Event) (hnonneg : NonnegArrivals events)
    (hfit : ∀ l, laneArrivals l events ≤ 2147483647)
    (s : Sys) (hs : Reachable events s) (l : Fin 4) : 0 ≤ s.sh.vehicleCount l := by
  obtain ⟨schedule, hrun⟩ := hs
  have hinit : CountsInv (fun l => laneArrivals l events) (initSys events) := by
    refine ⟨hnonneg, fun l => ?_⟩
    simp [initSys, initShared]
  exact ((run_countsInv _ hfit schedule _ _ hinit hrun).2 l).1

/-- Instance of `counts_nonneg`: the line `0 vehicle 0 5`, the state after the
scheduler's step and one controller step, lane 0. -/
theorem counts_nonneg_witness :
    0 ≤ (applyEvent ⟨0, "vehicle", 0, 5⟩ initShared).vehicleCount 0 :=
  counts_nonneg fiveAtLaneZero (by simp [NonnegArrivals, fiveAtLaneZero]) (by decide)
    { sh := applyEvent ⟨0, "vehicle", 0, 5⟩ initShared,
      ctrl := { initCtrl with pc := Pc.chkPaused },
      queue := [], currentTime := 0, clearTasks := 0, log := [Msg.added 0 5 0 5] }
    ⟨[Action.sched, Action.ctrl], rfl⟩ 0

/-- C2: when the controller determines the green time without resuming an
interrupted phase, the value is `clamp(v, 10, 90)` of the current lane's count
`v`: 10 below 10, 90 above 90, `v` in between; it lies in `[10, 90]`, and an
empty lane gets 10 ticks. -/
theorem green_time_is_clamp (sh : Shared) (c : Ctrl)
    (hpc : c.pc = Pc.compute) (hres : c.resumingGreenPhase = false) :
    ∃ c' out, ctrlStep sh c = some (sh, c', out) ∧
      c'.greenTime = clampRef (sh.vehicleCount c.currentLane) 10 90 ∧
      (sh.vehicleCount c.currentLane < 10 → c'.greenTime = 10) ∧
      (sh.vehicleCount c.currentLane > 90 → c'.greenTime = 90) ∧
      (10 ≤ sh.vehicleCount c.currentLane → sh.vehicleCount c.currentLane ≤ 90 →
        c'.greenTime = sh.vehicleCount c.currentLane) ∧
      10 ≤ c'.greenTime ∧ c'.greenTime ≤ 90 ∧
      (sh.vehicleCount c.currentLane = 0 → c'.greenTime = 10) := by
  refine ⟨{ c with greenTime := computeGreen (sh.vehicleCount c.currentLane), i := 0,
                   pc := Pc.loopHead },
    [Msg.green c.currentLane (computeGreen (sh.vehicleCount c.currentLane))], ?_, ?_⟩
  · simp only [ctrlStep, hpc, hres]
    rfl
  · simp only [computeGreen, clampRef, minGreen, maxGreen]
    split_ifs <;> omega

/-- Instance of `green_time_is_clamp`: lane 0 holds 200 vehicles and gets 90 ticks. -/
theorem green_time_is_clamp_witness :
    ∃ c' out, ctrlStep (laneZeroHolds 200) { initCtrl with pc := Pc.compute }
        = some (laneZeroHolds 200, c', out) ∧ c'.greenTime = 90 := by
  obtain ⟨c', out, h, -, -, h90, -⟩ :=
    green_time_is_clamp (laneZeroHolds 200) { initCtrl with pc := Pc.compute } rfl rfl
  exact ⟨c', out, h, h90 (by decide)⟩

/-- C3: a freshly computed green phase of a lane holding `n ≥ 0` vehicles, with no
emergency active and the controller running alone, lasts `g = clamp(n, 10, 90)`
ticks: first `min(n, g)` ticks that each let one vehicle pass, then
`g - min(n, g)` idle ticks, and then the lane change.  The lane is left with
`n - min(n, g)` vehicles and no other lane's count changes. -/
theorem uninterrupted_green_phase (s : Sys) (n : Int)
    (hpc : s.ctrl.pc = Pc.compute) (hres : s.ctrl.resumingGreenPhase = false)
    (hact : s.sh.emergencyActive = false)
    (hn : s.sh.vehicleCount s.ctrl.currentLane = n) (h0 : 0 ≤ n) :
    ∃ s', run (List.replicate (1 + 2 * (clampRef n 10 90).toNat + 1) Action.ctrl) s = some s' ∧
      s'.log = s.log ++ Msg.green s.ctrl.currentLane (clampRef n 10 90) ::
        ((List.range (min n (clampRef n 10 90)).toNat).map
            (fun j : Nat => Msg.passed s.ctrl.currentLane (n - 1 - (j : Int)))
          ++ List.replicate (clampRef n 10 90 - min n (clampRef n 10 90)).toNat
            (Msg.idle s.ctrl.currentLane)
          ++ [Msg.red s.ctrl.currentLane (nextLane s.ctrl.currentLane)]) ∧
      s'.sh.vehicleCount s.ctrl.currentLane = n - min n (clampRef n 10 90) ∧
      (∀ l, l ≠ s.ctrl.currentLane → s'.sh.vehicleCount l = s.sh.vehicleCount l) ∧
      s'.sh.emergencyActive = false ∧
      s'.sh.emergencyPaused = s.sh.emergencyPaused ∧
      s'.sh.resumeSignal = s.sh.resumeSignal ∧
      s'.ctrl.pc = Pc.top ∧
      s'.ctrl.currentLane = nextLane s.ctrl.currentLane := by
  obtain ⟨⟨vc, act, pau, rs⟩, ⟨pc, lane, gtl, res, g, i⟩, q, t, ct, lg⟩ := s
  simp only at hpc hres hact hn
  subst hpc hres hact
  have hg : 10 ≤ clampRef n 10 90 := by simp only [clampRef]; omega
  have hk : (0 : Int) + ((clampRef n 10 90).toNat : Nat) ≤ clampRef n 10 90 := by omega
  have hticks := run_ticks_aux (clampRef n 10 90).toNat vc pau rs lane gtl false
    (clampRef n 10 90) 0 q t ct (lg ++ [Msg.green lane (clampRef n 10 90)]) hk
  refine ⟨⟨⟨Function.update vc lane (countAfter (vc lane) (clampRef n 10 90).toNat), false, pau, rs⟩,
      ⟨Pc.top, nextLane lane, 0, false, clampRef n 10 90, 0 + ((clampRef n 10 90).toNat : Nat)⟩,
      q, t, ct, lg ++ [Msg.green lane (clampRef n 10 90)]
        ++ tickLines lane (vc lane) (clampRef n 10 90).toNat ++ [Msg.red lane (nextLane lane)]⟩,
    ?_, ?_⟩
  · have hsched : List.replicate (1 + 2 * (clampRef n 10 90).toNat + 1) Action.ctrl
        = Action.ctrl :: (List.replicate (2 * (clampRef n 10 90).toNat) Action.ctrl
            ++ [Action.ctrl]) := by
      rw [show 1 + 2 * (clampRef n 10 90).toNat + 1 = (2 * (clampRef n 10 90).toNat + 1) + 1 by ring,
        List.replicate_succ, List.replicate_succ']
    rw [hsched, run, step]
    simp only [ctrlStep, Bool.false_eq_true, if_false, Option.some_bind, hn, computeGreen_eq]
    rw [run_append, hticks]
    have hge : ¬ (0 + ((clampRef n 10 90).toNat : Int) < clampRef n 10 90) := by omega
    simp only [Option.some_bind, run, step, ctrlStep, hge, if_false, hn]
  · have e1 : min n.toNat (clampRef n 10 90).toNat = (min n (clampRef n 10 90)).toNat := by omega
    have e2 : (clampRef n 10 90).toNat - (min n (clampRef n 10 90)).toNat
        = (clampRef n 10 90 - min n (clampRef n 10 90)).toNat := by omega
    refine ⟨?_, ?_, ?_, rfl, rfl, rfl, rfl, rfl⟩
    · simp only [hn]
      rw [tickLines_eq _ _ _ h0, e1, e2]
      simp
    · simp only [Function.update_same, hn]
      rw [countAfter_eq _ _ h0]
      omega
    · intro l hl
      simp [Function.update_noteq hl]

/-- Instance of `uninterrupted_green_phase` for five vehicles in lane 0: five
passing ticks, five idle ticks, nothing left. -/
theorem uninterrupted_green_phase_witness :
    ∃ s', run (List.replicate 22 Action.ctrl) beforeGreen = some s' ∧
      s'.log = [Msg.green 0 10, Msg.passed 0 4, Msg.passed 0 3, Msg.passed 0 2,
        Msg.passed 0 1, Msg.passed 0 0, Msg.idle 0, Msg.idle 0, Msg.idle 0, Msg.idle 0,
        Msg.idle 0, Msg.red 0 1] ∧
      s'.sh.vehicleCount 0 = 0 := by
  obtain ⟨s', hrun, hlog, hcount, -⟩ :=
    uninterrupted_green_phase beforeGreen 5 rfl rfl rfl rfl (by decide)
  refine ⟨s', hrun, ?_, ?_⟩
  · rw [hlog]
    decide
  · rw [show (0 : Fin 4) = beforeGreen.ctrl.currentLane from rfl, hcount]
    decide

/-- C4, as stated, fails: lane 0 gets 3 vehicles and a 10-tick phase, the
emergency interrupts it after 5 ticks with `greenTimeLeft = 5`, and after the
clear thread has woken the controller the top-of-loop check finds every lane
empty and stops.  Five ticks ran instead of ten. -/
theorem interrupted_phase_cut_short :
    ∃ s, run ([Action.sched, Action.ctrl, Action.ctrl, Action.ctrl]
          ++ List.replicate 10 Action.ctrl
          ++ [Action.sched, Action.ctrl, Action.ctrl, Action.clear, Action.ctrl, Action.ctrl])
        (initSys threeThenEmergency) = some s ∧
      s.ctrl.pc = Pc.done ∧ s.ctrl.greenTime = 10 ∧ s.ctrl.greenTimeLeft = 5 ∧
      s.ctrl.currentLane = 0 ∧ ticksOf 0 s.log = 5 := by
  refine ⟨_, rfl, ?_, ?_, ?_, ?_, ?_⟩ <;> decide

/-- C4, amended.  When the controller, at the head of the tick loop with `i`
ticks run out of `greenTime = g` (`i < g`), sees `emergencyActive`:
* it saves `greenTimeLeft = g - i` and runs no tick;
* in every interleaving, as long as the controller has neither stopped at the
  top-of-loop check nor changed lane, it stays on the same lane, the ticks run
  since the interruption plus the ticks still owed equal `g - i`, the green time
  of the resumed phase is taken from `greenTimeLeft` (the controller is resuming
  when it determines it), and when the loop is exhausted exactly `g - i` ticks
  have run since the interruption, so that the ticks before and after add up
  to `g`;
* when a clear thread is pending, `resumeSignal` is false and some lane still
  holds a vehicle, the schedule in which the controller waits, the clear thread
  wakes it and the controller then runs alone resumes with `green (g - i)`, runs
  exactly `g - i` ticks on the same lane and changes lane. -/
theorem interrupted_phase_round_trip (s : Sys) (hpc : s.ctrl.pc = Pc.loopHead)
    (hi : s.ctrl.i < s.ctrl.greenTime) (hact : s.sh.emergencyActive = true) :
    (∃ s1, step Action.ctrl s = some s1 ∧ s1.ctrl.pc = Pc.lockMid ∧
      s1.ctrl.greenTimeLeft = s.ctrl.greenTime - s.ctrl.i ∧
      s1.ctrl.currentLane = s.ctrl.currentLane ∧
      ticksOf s.ctrl.currentLane s1.log = ticksOf s.ctrl.currentLane s.log) ∧
    (∀ schedule s', run (Action.ctrl :: schedule) s = some s' → s'.ctrl.pc ≠ Pc.done →
      redCount s'.log = redCount s.log →
      s'.ctrl.currentLane = s.ctrl.currentLane ∧
      (ticksOf s.ctrl.currentLane s'.log : Int) - ticksOf s.ctrl.currentLane s.log
          + owed s'.ctrl = s.ctrl.greenTime - s.ctrl.i ∧
      0 ≤ owed s'.ctrl ∧
      (s'.ctrl.pc = Pc.compute → s'.ctrl.resumingGreenPhase = true) ∧
      (s'.ctrl.pc = Pc.loopHead → s'.ctrl.greenTime ≤ s'.ctrl.i →
        (ticksOf s.ctrl.currentLane s'.log : Int) - ticksOf s.ctrl.currentLane s.log
          = s.ctrl.greenTime - s.ctrl.i)) ∧
    (s.sh.resumeSignal = false → 0 < s.clearTasks → (∃ l, 0 < s.sh.vehicleCount l) →
      ∃ s', run ([Action.ctrl, Action.ctrl, Action.clear, Action.ctrl, Action.ctrl,
            Action.ctrl, Action.ctrl]
            ++ (List.replicate (2 * (s.ctrl.greenTime - s.ctrl.i).toNat) Action.ctrl
              ++ [Action.ctrl])) s = some s' ∧
        s'.ctrl.pc = Pc.top ∧ s'.ctrl.currentLane = nextLane s.ctrl.currentLane ∧
        s'.log = s.log ++ [Msg.midGreen (s.ctrl.greenTime - s.ctrl.i), Msg.autoCleared,
            Msg.green s.ctrl.currentLane (s.ctrl.greenTime - s.ctrl.i)]
          ++ tickLines s.ctrl.currentLane (s.sh.vehicleCount s.ctrl.currentLane)
              (s.ctrl.greenTime - s.ctrl.i).toNat
          ++ [Msg.red s.ctrl.currentLane (nextLane s.ctrl.currentLane)] ∧
        ticksOf s.ctrl.currentLane s'.log
          = ticksOf s.ctrl.currentLane s.log + (s.ctrl.greenTime - s.ctrl.i).toNat) := by
  refine ⟨?_, ?_, ?_⟩
  · refine ⟨_, step_interrupt s hpc hi hact, rfl, rfl, rfl, ?_⟩
    simp [ticksOf_append, ticksOf, isTickOf]
  · intro schedule s' hrun hd hr
    obtain ⟨hL, hT, h0, -, -, hres, -⟩ :=
      phaseInv_after_interrupt s hpc hi hact schedule s' hrun hd hr
    refine ⟨hL, by omega, h0, fun h => hres (by simp [h]), fun hlh hge => ?_⟩
    have : owed s'.ctrl = s'.ctrl.greenTime - s'.ctrl.i := by simp [owed, hlh]
    omega
  · intro hrs hct hveh
    exact run_resumed_phase s hpc hi hact hrs hct hveh

/-- Instance of `interrupted_phase_round_trip`: a 20-tick phase of lane 0
interrupted after 3 ticks resumes with 17 ticks and then changes lane. -/
theorem interrupted_phase_round_trip_witness :
    ∃ s', run ([Action.ctrl, Action.ctrl, Action.clear, Action.ctrl, Action.ctrl,
          Action.ctrl, Action.ctrl] ++ (List.replicate 34 Action.ctrl ++ [Action.ctrl]))
        emergencySeen = some s' ∧
      s'.ctrl.pc = Pc.top ∧ s'.ctrl.currentLane = 1 ∧ ticksOf 0 s'.log = 17 := by
  obtain ⟨s', hrun, hpc, hlane, -, hticks⟩ :=
    (interrupted_phase_round_trip emergencySeen rfl (by decide) rfl).2.2 rfl (by decide)
      ⟨0, by decide⟩
  exact ⟨s', hrun, hpc, hlane, hticks⟩

/-- C5 fails on the code: the controller reads `emergencyActive` (false) at
the head of the tick loop outside the lock, the scheduler then applies the
emergency event and sets `emergencyPaused`, and the controller's tick, taken
with `emergencyPaused` true, lowers lane 0 from 5 to 4. -/
theorem decrement_while_paused :
    ∃ s s', run [Action.sched, Action.ctrl, Action.ctrl, Action.ctrl, Action.ctrl,
          Action.sched] (initSys fiveThenEmergency) = some s ∧
      s.sh.emergencyPaused = true ∧ s.ctrl.pc = Pc.tick ∧ s.sh.vehicleCount 0 = 5 ∧
      step Action.ctrl s = some s' ∧ s'.sh.vehicleCount 0 = 4 ∧
      s'.log = s.log ++ [Msg.passed 0 4] := by
  refine ⟨_, _, rfl, ?_, ?_, ?_, rfl, ?_, ?_⟩ <;> decide

/-- C6, as stated, fails: after the accepted line `0 vehicle 0 -5` the
controller's top-of-loop check stops the controller although lane 0's count is
`-5`, not 0. -/
theorem stops_with_negative_count :
    ∃ s s', Reachable minusFiveAtLaneZero s ∧ s.ctrl.pc = Pc.top ∧
      step Action.ctrl s = some s' ∧ s'.ctrl.pc = Pc.done ∧ s.sh.vehicleCount 0 ≠ 0 := by
  refine ⟨_, _, ⟨[Action.sched], rfl⟩, ?_, rfl, ?_, ?_⟩ <;> decide

/-- C6, amended: a step of the system takes the running controller to its end
if and only if it is the controller's step at the top of its loop and no lane's
vehicle count is positive and the emergency is neither active nor paused; when
no count is negative this says that every count is 0.  No other step ends the
controller, and at the top of the loop the controller can always step. -/
theorem termination_check (a : Action) (s s' : Sys) (h : step a s = some s')
    (hrun : s.ctrl.pc ≠ Pc.done) :
    (s'.ctrl.pc = Pc.done ↔
      a = Action.ctrl ∧ s.ctrl.pc = Pc.top ∧ (∀ l, s.sh.vehicleCount l ≤ 0) ∧
        s.sh.emergencyActive = false ∧ s.sh.emergencyPaused = false) ∧
    ((∀ l, 0 ≤ s.sh.vehicleCount l) →
      (s'.ctrl.pc = Pc.done ↔
        a = Action.ctrl ∧ s.ctrl.pc = Pc.top ∧ (∀ l, s.sh.vehicleCount l = 0) ∧
          s.sh.emergencyActive = false ∧ s.sh.emergencyPaused = false)) ∧
    (s.ctrl.pc = Pc.top → ∃ t, step Action.ctrl s = some t) := by
  have hvr : vehiclesRemaining s.sh = false ↔ ∀ l, s.sh.vehicleCount l ≤ 0 := by
    rw [← Bool.not_eq_true, vehiclesRemaining_iff]
    push_neg
    rfl
  have key : s'.ctrl.pc = Pc.done ↔
      a = Action.ctrl ∧ s.ctrl.pc = Pc.top ∧ (∀ l, s.sh.vehicleCount l ≤ 0) ∧
        s.sh.emergencyActive = false ∧ s.sh.emergencyPaused = false := by
    rw [← hvr]
    obtain ⟨out, -, hctrl⟩ := step_log_prefix a s s' h
    cases a with
    | sched => simp [hctrl (by simp), hrun]
    | clear => simp [hctrl (by simp), hrun]
    | ctrl =>
      simp only [step] at h
      cases hcs : ctrlStep s.sh s.ctrl with
      | none => simp [hcs] at h
      | some r =>
        obtain ⟨sh', c', out'⟩ := r
        simp only [hcs, Option.some.injEq] at h
        subst h
        unfold ctrlStep at hcs
        split at hcs <;> (try split_ifs at hcs with hc) <;>
          simp only [Option.some.injEq, Prod.mk.injEq, reduceCtorEq] at hcs <;>
          obtain ⟨-, rfl, -⟩ := hcs <;> simp_all
  refine ⟨key, fun hnn => ?_, fun htop => ?_⟩
  · rw [key]
    have : (∀ l, s.sh.vehicleCount l ≤ 0) ↔ ∀ l, s.sh.vehicleCount l = 0 :=
      ⟨fun hle l => le_antisymm (hle l) (hnn l), fun heq l => le_of_eq (heq l)⟩
    rw [this]
  · simp only [step, ctrlStep, htop]
    split_ifs <;> exact ⟨_, rfl⟩

/-- Instance of `termination_check`: with no events at all the controller's first
step ends it. -/
theorem termination_check_witness :
    ({ initSys [] with ctrl := { initCtrl with pc := Pc.done },
                       log := [Msg.allCleared, Msg.simulationComplete] } : Sys).ctrl.pc = Pc.done ↔
      Action.ctrl = Action.ctrl ∧ (initSys []).ctrl.pc = Pc.top ∧
        (∀ l, (initSys []).sh.vehicleCount l ≤ 0) ∧
        (initSys []).sh.emergencyActive = false ∧ (initSys []).sh.emergencyPaused = false :=
  (termination_check Action.ctrl (initSys [])
    { initSys [] with ctrl := { initCtrl with pc := Pc.done },
                      log := [Msg.allCleared, Msg.simulationComplete] } rfl (by decide)).1

/-- The log of the complete run for the single arrival of 5 vehicles at lane 0. -/
theorem run_single_arrival :
    ∃ s, run (Action.sched :: List.replicate 25 Action.ctrl) (initSys fiveAtLaneZero) = some s ∧
      s.log = [Msg.added 0 5 0 5, Msg.green 0 10, Msg.passed 0 4, Msg.passed 0 3,
        Msg.passed 0 2, Msg.passed 0 1, Msg.passed 0 0, Msg.idle 0, Msg.idle 0, Msg.idle 0,
        Msg.idle 0, Msg.idle 0, Msg.red 0 1, Msg.allCleared, Msg.simulationComplete] ∧
      s.ctrl.pc = Pc.done :=
  ⟨_, rfl, by decide, by decide⟩

/-- C7, as stated, fails: with the single arrival of 5 vehicles at lane 0
applied first, the controller ends right after lane 0's phase; no green phase
of lane 1 is ever logged. -/
theorem no_green_phase_for_lane_one :
    ∃ s, run (Action.sched :: List.replicate 25 Action.ctrl) (initSys fiveAtLaneZero) = some s ∧
      s.ctrl.pc = Pc.done ∧ ∀ g, Msg.green 1 g ∉ s.log := by
  obtain ⟨s, hrun, hlog, hpc⟩ := run_single_arrival
  refine ⟨s, hrun, hpc, fun g hmem => ?_⟩
  rw [hlog] at hmem
  simp at hmem

/-- C7, amended: with the single arrival of 5 vehicles at lane 0 applied first,
the controller runs lane 0's 10-tick phase (5 passing, 5 idle), changes to lane
1, and the next top-of-loop check finds every lane empty and ends the
simulation; after that no thread can move. -/
theorem single_arrival_run :
    ∃ s, run (Action.sched :: List.replicate 25 Action.ctrl) (initSys fiveAtLaneZero) = some s ∧
      s.log = [Msg.added 0 5 0 5, Msg.green 0 10, Msg.passed 0 4, Msg.passed 0 3,
        Msg.passed 0 2, Msg.passed 0 1, Msg.passed 0 0, Msg.idle 0, Msg.idle 0, Msg.idle 0,
        Msg.idle 0, Msg.idle 0, Msg.red 0 1, Msg.allCleared, Msg.simulationComplete] ∧
      s.ctrl.pc = Pc.done ∧ s.ctrl.currentLane = 1 ∧ (∀ l, s.sh.vehicleCount l = 0) ∧
      ∀ a, step a s = none := by
  refine ⟨_, rfl, by decide, by decide, by decide, by decide, ?_⟩
  intro a
  cases a <;> rfl

/-- C8, as stated, fails: after the accepted lines `0 vehicle 0 2147483647` and
`1 vehicle 0 1` the second arrival does not add its count to lane 0.  The
`+=` of line 100 leaves the range of `int` and lane 0 holds `-2147483648`, where
the reference has `2147483648`. -/
theorem overflowing_arrival_is_not_added :
    ∃ s, run [Action.sched] (initSys intMaxThenOne) = some s ∧
      s.sh.vehicleCount 0 = 2147483647 ∧
      (applyEvent ⟨1, "vehicle", 0, 1⟩ s.sh).vehicleCount 0 = -2147483648 ∧
      (applyEventRef ⟨1, "vehicle", 0, 1⟩ s.sh).vehicleCount 0 = 2147483648 ∧
      applyEvent ⟨1, "vehicle", 0, 1⟩ s.sh ≠ applyEventRef ⟨1, "vehicle", 0, 1⟩ s.sh ∧
      ∃ t, step Action.sched s = some t ∧ t.sh.vehicleCount 0 = -2147483648 := by
  refine ⟨_, rfl, by decide, by decide, by decide, fun h => ?_, _, rfl, by decide⟩
  have h0 := congrArg (fun sh : Shared => sh.vehicleCount 0) h
  revert h0
  decide

/-- C8, amended: for every shared state and every event for which, when the
event is a vehicle event for a lane in `[0,4)`, that lane's count plus the
event's count lies in the range of `int`, the scheduler's apply step equals the
reference: a vehicle event for a lane in `[0,4)` adds its count to that lane and
changes no other lane and no emergency flag, an emergency event sets `active`
and `paused` and changes no vehicle count and not `resumeSignal`, and a vehicle
event for a lane outside `[0,4)` or an event of any other type changes
nothing. -/
theorem event_application (e : Event) (sh : Shared)
    (hfit : e.type = "vehicle" → ∀ l : Fin 4, (l.val : Int) = e.lane →
      -2147483648 ≤ sh.vehicleCount l + e.count ∧
        sh.vehicleCount l + e.count ≤ 2147483647) :
    applyEvent e sh = applyEventRef e sh := by
  unfold applyEvent applyEventRef
  by_cases hv : e.type = "vehicle"
  · by_cases hl : 0 ≤ e.lane ∧ e.lane < 4
    · obtain ⟨l, hl1, hl2⟩ := laneIndex_some e.lane hl.1 hl.2
      have hsum := hfit hv l hl2
      simp only [hv, hl1, hl, and_self, if_true]
      congr 1
      funext l'
      by_cases h : l' = l
      · subst h
        simp [hl2, wrap32_of_fits _ hsum.1 hsum.2]
      · have : ¬ (l'.val : Int) = e.lane := by
          intro hh
          apply h
          apply Fin.ext
          have := hh.trans hl2.symm
          exact_mod_cast this
        simp [Function.update_noteq h, this]
    · have hn := laneIndex_none e.lane hl
      simp [hv, hn, hl]
  · by_cases he : e.type = "emergency"
    · simp [hv, he]
    · simp [hv, he]

/-- Instance of `event_application`: the arrival of 5 vehicles at lane 0, which
holds 17 vehicles while an emergency is active. -/
theorem event_application_witness :
    applyEvent ⟨4, "vehicle", 0, 5⟩ emergencySeen.sh
      = applyEventRef ⟨4, "vehicle", 0, 5⟩ emergencySeen.sh :=
  event_application ⟨4, "vehicle", 0, 5⟩ emergencySeen.sh (by decide)

/-- C9 fails on the code: the line `5 vehicle`, which lacks the lane index and
the count, is not skipped; `loadEvents` queues a vehicle event whose lane and
count are whatever the uninitialised local `e` held, and the line `5 vehicle 2`
is queued with such a count.  In general every line that is no comment, has at
least two characters and starts with an integer and the token `vehicle` is
queued whatever follows.  The other kinds of malformed line are skipped: comment
lines, lines shorter than two characters, lines without an integer timestamp
and lines without a type token. -/
theorem vehicle_line_without_fields_is_queued (uninit : Event) (queue : List Event) :
    processLine uninit "5 vehicle\n".toList queue
      = queue ++ [{ time := 5, type := "vehicle", lane := uninit.lane, count := uninit.count }] ∧
    processLine uninit "5 vehicle 2\n".toList queue
      = queue ++ [{ time := 5, type := "vehicle", lane := 2, count := uninit.count }] ∧
    (∀ line time afterTime afterType, line.head? ≠ some '#' → 2 ≤ line.length →
      scanInt line = some (time, afterTime) → scanToken afterTime = some ("vehicle", afterType) →
      ∃ lane count, processLine uninit line queue
        = queue ++ [{ time := time, type := "vehicle", lane := lane, count := count }]) ∧
    (∀ line, line.head? = some '#' ∨ line.length < 2 ∨ scanInt line = none ∨
        (∃ time afterTime, scanInt line = some (time, afterTime) ∧ scanToken afterTime = none) →
      processLine uninit line queue = queue) := by
  refine ⟨rfl, rfl, ?_, ?_⟩
  · intro line time afterTime afterType hhash hlen hint htok
    have hcond : ¬ ((line.head? = some '#' || decide (line.length < 2)) = true) := by
      simp [hhash]
      omega
    simp only [processLine, hcond, if_false, hint, htok, if_true]
    cases h1 : scanInt afterType with
    | none => exact ⟨uninit.lane, uninit.count, by simp⟩
    | some r =>
      obtain ⟨lane, afterLane⟩ := r
      cases h2 : scanInt afterLane with
      | none => exact ⟨lane, uninit.count, by simp [h2]⟩
      | some r2 => exact ⟨lane, r2.1, by simp [h2]⟩
  · intro line h
    unfold processLine
    rcases h with h | h | h | ⟨time, afterTime, h1, h2⟩
    · simp [h]
    · simp [h]
    · split_ifs
      · rfl
      · simp [h]
    · split_ifs
      · rfl
      · simp [h1, h2]

/-- C10 fails on the code: the controller sees `emergencyActive` at the head of
the tick loop, the clear thread runs before the controller takes the lock, and
the controller then sets `emergencyPaused` and consumes `resumeSignal`.  The
clear thread has run and the signal is consumed, yet `emergencyPaused` is true;
the controller enters the emergency wait again and no thread can move. -/
theorem paused_left_set_after_clear :
    ∃ s t, run [Action.sched, Action.ctrl, Action.ctrl, Action.ctrl, Action.sched,
          Action.ctrl, Action.clear, Action.ctrl] (initSys twentyThenEmergency) = some s ∧
      s.queue = [] ∧ s.clearTasks = 0 ∧
      s.sh.emergencyActive = false ∧ s.sh.emergencyPaused = true ∧
      s.sh.resumeSignal = false ∧ s.ctrl.pc = Pc.top ∧
      run [Action.ctrl, Action.ctrl] s = some t ∧ t.ctrl.pc = Pc.waitTop ∧
      ∀ a, step a t = none := by
  refine ⟨_, _, rfl, by decide, by decide, by decide, by decide, by decide, by decide, rfl,
    by decide, ?_⟩
  intro a
  cases a <;> rfl

end Traffic
